import Mathlib

/-!
Verification of the analytical core of student_analysis.py.

The program manipulates pandas DataFrames of per-student, per-subject
marks.  We embed it shallowly: a table is a list of named columns, a
column cell is a numeric value, a text value or a missing value (NaN),
and machine floats are modelled as exact rationals.  Quantities the
program obtains through a real square root (standard deviations,
skewness) are modelled through their squares, which determine them:
two nonnegative reals are equal iff their squares are, and two reals
whose squares differ are different.  A float NaN is modelled as
Option.none.
-/

/-- A table cell as the cleaning stage sees it: a numeric value, a text
value, or a missing value (a float NaN).  A cell that pd.to_numeric can
coerce is represented as num, a non-coercible cell as text. -/
inductive Value where
  | num (q : ℚ)
  | text (s : String)
  | missing
deriving DecidableEq, Repr

/-- astype(str).str.strip() on one cell (line 48): trims whitespace of
text cells and leaves numeric and missing cells as they are. -/
def stripCell (v : Value) : Value :=
  match v with
  | .text s => .text s.trim
  | v => v

/-- pd.to_numeric with errors coerce on one cell (line 51): numeric
cells stay, text and missing cells become NaN. -/
def toNumeric (v : Value) : Value :=
  match v with
  | .num q => .num q
  | _ => .missing

/-- The numeric content of a cell, none for text or missing. -/
def numOf (v : Value) : Option ℚ :=
  match v with
  | .num q => some q
  | _ => none

/-- Series.mean with skipna (line 52, df[s].mean()): the mean of the
present numeric values, NaN (none) when none is present. -/
def colMean (cells : List Value) : Option ℚ :=
  let vs := cells.filterMap numOf
  if vs.length = 0 then none else some (vs.sum / vs.length)

/-- fillna on one cell: a missing cell takes the fill value when that
value is a number; filling with NaN leaves the cell missing. -/
def fillCell (fill : Option ℚ) (c : Value) : Value :=
  match c, fill with
  | .missing, some q => .num q
  | c, _ => c

/-- Series.fillna (line 52): replace the missing cells by the fill
value. -/
def fillna (cells : List Value) (fill : Option ℚ) : List Value :=
  cells.map (fillCell fill)

/-- Lines 51 and 52 for one subject column: coerce every cell, then fill
the NaN cells with the mean of the coerced column, the mean being taken
before any filling. -/
def cleanColumn (cells : List Value) : List Value :=
  fillna (cells.map toNumeric) (colMean (cells.map toNumeric))

/-- A named column of a table. -/
abbrev Column := String × List Value

/-- A DataFrame: an ordered list of named columns. -/
abbrev Table := List Column

/-- Column access df[name]. -/
def lookupCol (t : Table) (name : String) : Option (List Value) :=
  (t.find? (fun c => c.1 = name)).map (fun c => c.2)

/-- The fixed identifier-column set of get_subject_columns (line 38). -/
def non_subjects : List String := ["StudentID", "Name", "Class", "Section"]

/-- get_subject_columns (lines 37-39): every column name not in the
identifier set, in original order. -/
def get_subject_columns (cols : List String) : List String :=
  cols.filter (fun c => !(non_subjects.contains c))

/-- clean_data (lines 44-54): strip every text cell, then replace each
subject column by its cleaned version.  Each subject column is cleaned
from its own cells only. -/
def clean_data (t : Table) (subjects : List String) : Table :=
  (t.map (fun c => (c.1, c.2.map stripCell))).map
    (fun c => if c.1 ∈ subjects then (c.1, cleanColumn c.2) else c)

/-- Modelled from the words of the spec, for comparison with the code:
the mean of a raw column over only the cells that were originally valid
numerics, before any imputation. -/
def validMean (cells : List Value) : Option ℚ :=
  let vs := cells.filterMap (fun c => numOf (toNumeric c))
  if vs.length = 0 then none else some (vs.sum / vs.length)

/-- assign_grade (lines 85-93). -/
def assign_grade (avg : ℚ) : String :=
  if avg ≥ 90 then "A"
  else if avg ≥ 75 then "B"
  else if avg ≥ 60 then "C"
  else "D"

/-- The ordinal position of a grade band, D lowest.  Used to state that
a larger average never yields a worse band. -/
def gradeRank (g : String) : ℕ :=
  if g = "A" then 3 else if g = "B" then 2 else if g = "C" then 1 else 0

/-- The example raw table of the spec: three students, subjects Math and
Sci, one non-coercible Math cell. -/
def exampleRaw : Table :=
  [("StudentID", [.num 1, .num 2, .num 3]),
   ("Math", [.num 90, .num 60, .text "bad"]),
   ("Sci", [.num 80, .num 40, .num 100])]

section CleanLemmas

theorem colMean_map_toNumeric (cells : List Value) :
    colMean (cells.map toNumeric) = validMean cells := by
  unfold colMean validMean
  rw [List.filterMap_map]
  rfl

theorem cleanColumn_get? (cells : List Value) (i : ℕ) (v : Value)
    (h : cells.get? i = some v) :
    (cleanColumn cells).get? i =
      some (fillCell (validMean cells) (toNumeric v)) := by
  unfold cleanColumn fillna
  rw [colMean_map_toNumeric, List.get?_map, List.get?_map, h]
  rfl

theorem exampleClean_eval :
    clean_data exampleRaw (get_subject_columns ["StudentID", "Math", "Sci"]) =
      [("StudentID", [.num 1, .num 2, .num 3]),
       ("Math", [.num 90, .num 60, .num 75]),
       ("Sci", [.num 80, .num 40, .num 100])] := by
  rw [show get_subject_columns ["StudentID", "Math", "Sci"] = ["Math", "Sci"] from by decide]
  simp [clean_data, exampleRaw, cleanColumn, fillna, colMean, toNumeric, numOf,
    stripCell, fillCell]
  norm_num

end CleanLemmas

/-- C1: cleaning keeps every originally valid numeric subject cell and
replaces each non-coercible cell with the mean of that same column taken
over the originally valid numerics only (validMean); on the example
table of the spec the cleaned Math column is 90, 60, 75 and the cleaned
Sci column is 80, 40, 100. -/
theorem C1_imputation_uses_valid_column_mean :
    (∀ (cells : List Value) (i : ℕ) (q : ℚ),
       cells.get? i = some (.num q) →
       (cleanColumn cells).get? i = some (.num q)) ∧
    (∀ (cells : List Value) (i : ℕ) (v : Value) (m : ℚ),
       cells.get? i = some v → numOf (toNumeric v) = none →
       validMean cells = some m →
       (cleanColumn cells).get? i = some (.num m)) ∧
    lookupCol (clean_data exampleRaw (get_subject_columns ["StudentID", "Math", "Sci"])) "Math"
      = some [.num 90, .num 60, .num 75] ∧
    lookupCol (clean_data exampleRaw (get_subject_columns ["StudentID", "Math", "Sci"])) "Sci"
      = some [.num 80, .num 40, .num 100] := by
  refine ⟨?_, ?_, ?_, ?_⟩
  · intro cells i q h
    rw [cleanColumn_get? cells i _ h]
    rfl
  · intro cells i v m h hv hm
    rw [cleanColumn_get? cells i v h]
    cases v with
    | num q => simp [toNumeric, numOf] at hv
    | text s => simp [toNumeric, fillCell, hm]
    | missing => simp [toNumeric, fillCell, hm]
  · rw [exampleClean_eval]
    simp [lookupCol, List.find?]
  · rw [exampleClean_eval]
    simp [lookupCol, List.find?]

/-- Witness for C1 at concrete inputs: the valid cell 60 of the example
Math column is kept, and the non-coercible cell at index 2 becomes 75,
the mean of 90 and 60. -/
theorem C1_imputation_uses_valid_column_mean_witness :
    (cleanColumn [.num 90, .num 60, .text "bad"]).get? 1 = some (.num 60) ∧
    (cleanColumn [.num 90, .num 60, .text "bad"]).get? 2 = some (.num 75) := by
  constructor
  · exact C1_imputation_uses_valid_column_mean.1 [.num 90, .num 60, .text "bad"] 1 60 rfl
  · exact C1_imputation_uses_valid_column_mean.2.1 [.num 90, .num 60, .text "bad"] 2
      (.text "bad") 75 rfl rfl
      (by rw [← colMean_map_toNumeric]; simp [colMean, toNumeric, numOf]; norm_num)

theorem gradeRank_assign (a : ℚ) :
    gradeRank (assign_grade a) =
      if a ≥ 90 then 3 else if a ≥ 75 then 2 else if a ≥ 60 then 1 else 0 := by
  unfold assign_grade gradeRank
  split_ifs <;> simp_all

/-- C3: assign_grade is the step function sending averages of at least
90 to A, of at least 75 and under 90 to B, of at least 60 and under 75
to C, everything under 60 to D, and a larger average never produces a
band of smaller rank. -/
theorem C3_grade_step_function_monotone :
    (∀ a : ℚ, 90 ≤ a → assign_grade a = "A") ∧
    (∀ a : ℚ, 75 ≤ a → a < 90 → assign_grade a = "B") ∧
    (∀ a : ℚ, 60 ≤ a → a < 75 → assign_grade a = "C") ∧
    (∀ a : ℚ, a < 60 → assign_grade a = "D") ∧
    (∀ x y : ℚ, x ≤ y →
       gradeRank (assign_grade x) ≤ gradeRank (assign_grade y)) := by
  refine ⟨?_, ?_, ?_, ?_, ?_⟩
  · intro a h; simp [assign_grade, h]
  · intro a h1 h2
    rw [assign_grade, if_neg (by linarith), if_pos (by linarith)]
  · intro a h1 h2
    rw [assign_grade, if_neg (by linarith), if_neg (by linarith), if_pos (by linarith)]
  · intro a h
    rw [assign_grade, if_neg (by linarith), if_neg (by linarith), if_neg (by linarith)]
  · intro x y hxy
    rw [gradeRank_assign, gradeRank_assign]
    split_ifs <;> first | omega | linarith

/-- Witness for C3 at concrete averages 95, 80, 65, 40, and the pair 40
against 95 for monotonicity. -/
theorem C3_grade_step_function_monotone_witness :
    assign_grade 95 = "A" ∧ assign_grade 80 = "B" ∧
    assign_grade 65 = "C" ∧ assign_grade 40 = "D" ∧
    gradeRank (assign_grade 40) ≤ gradeRank (assign_grade 95) :=
  ⟨C3_grade_step_function_monotone.1 95 (by norm_num),
   C3_grade_step_function_monotone.2.1 80 (by norm_num) (by norm_num),
   C3_grade_step_function_monotone.2.2.1 65 (by norm_num) (by norm_num),
   C3_grade_step_function_monotone.2.2.2.1 40 (by norm_num),
   C3_grade_step_function_monotone.2.2.2.2 40 95 (by norm_num)⟩

/-- The Total of one student row: the sum of its subject marks
(line 61, df[subjects].sum(axis=1) on a clean row). -/
def total (marks : List ℚ) : ℚ := marks.sum

/-- The Average of one student row (line 62, df[subjects].mean(axis=1)
on a clean row). -/
def average (marks : List ℚ) : ℚ := marks.sum / marks.length

/-- Series.rank with method min and ascending False (line 63): the rank
of a value of the Total column is one more than the number of column
entries strictly greater than it.  Entries with equal Total get equal
rank by construction, since the rank depends only on the value. -/
def rankMin (totals : List ℚ) (t : ℚ) : ℕ :=
  1 + totals.countP (fun x => decide (t < x))

section RankLemmas

theorem list_exists_max {l : List ℚ} (h : l ≠ []) : ∃ m ∈ l, ∀ x ∈ l, x ≤ m := by
  induction l with
  | nil => exact absurd rfl h
  | cons a l ih =>
    rcases eq_or_ne l [] with rfl | hl
    · exact ⟨a, List.mem_cons_self a [], by simp⟩
    · obtain ⟨m, hm, hmax⟩ := ih hl
      rcases le_total a m with hle | hle
      · refine ⟨m, List.mem_cons_of_mem a hm, ?_⟩
        intro x hx
        rcases List.mem_cons.mp hx with rfl | hx
        · exact hle
        · exact hmax x hx
      · refine ⟨a, List.mem_cons_self a l, ?_⟩
        intro x hx
        rcases List.mem_cons.mp hx with rfl | hx
        · exact le_refl x
        · exact (hmax x hx).trans hle

theorem list_exists_min {l : List ℚ} (h : l ≠ []) : ∃ m ∈ l, ∀ x ∈ l, m ≤ x := by
  induction l with
  | nil => exact absurd rfl h
  | cons a l ih =>
    rcases eq_or_ne l [] with rfl | hl
    · exact ⟨a, List.mem_cons_self a [], by simp⟩
    · obtain ⟨m, hm, hmin⟩ := ih hl
      rcases le_total m a with hle | hle
      · refine ⟨m, List.mem_cons_of_mem a hm, ?_⟩
        intro x hx
        rcases List.mem_cons.mp hx with rfl | hx
        · exact hle
        · exact hmin x hx
      · refine ⟨a, List.mem_cons_self a l, ?_⟩
        intro x hx
        rcases List.mem_cons.mp hx with rfl | hx
        · exact le_refl x
        · exact hle.trans (hmin x hx)

theorem countP_gt_strict {l : List ℚ} {a b : ℚ} (ha : a ∈ l) (hba : b < a) :
    l.countP (fun x => decide (a < x)) < l.countP (fun x => decide (b < x)) := by
  induction l with
  | nil => simp at ha
  | cons c cs ih =>
    have mono : cs.countP (fun x => decide (a < x)) ≤ cs.countP (fun x => decide (b < x)) :=
      List.countP_mono_left (fun x _ hx => by
        simp only [decide_eq_true_eq] at hx ⊢
        exact hba.trans hx)
    simp only [List.countP_cons, decide_eq_true_eq]
    rcases List.mem_cons.mp ha with rfl | hmem
    · have h1 : ¬ a < a := lt_irrefl a
      simp only [h1, hba, if_false, if_true]
      omega
    · have ihlt := ih hmem
      by_cases h1 : a < c
      · have h2 : b < c := hba.trans h1
        simp only [h1, h2, if_true]
        omega
      · by_cases h2 : b < c <;> simp only [h1, h2, if_true, if_false] <;> omega

theorem countP_gt_lt_length {l : List ℚ} {t : ℚ} (ht : t ∈ l) :
    l.countP (fun x => decide (t < x)) < l.length := by
  have hlen := List.length_eq_countP_add_countP (fun x => decide (t < x)) l
  have pos : 0 < l.countP (fun a => decide ¬(decide (t < a)) = true) :=
    List.countP_pos.mpr ⟨t, ht, by simp⟩
  omega

theorem countP_gt_split {l : List ℚ} {t u : ℚ} (htu : t < u)
    (hmin : ∀ x ∈ l, t < x → u ≤ x) :
    l.countP (fun x => decide (t < x)) =
      l.countP (fun x => decide (u < x)) + l.countP (fun x => decide (x = u)) := by
  induction l with
  | nil => simp
  | cons a l ih =>
    have ih' := ih (fun x hx => hmin x (List.mem_cons_of_mem a hx))
    have ha := hmin a (List.mem_cons_self a l)
    simp only [List.countP_cons, ih', decide_eq_true_eq]
    by_cases h1 : t < a
    · rcases lt_or_eq_of_le (ha h1) with h2 | h2
      · have h3 : ¬ a = u := fun he => absurd (he ▸ h2) (lt_irrefl u)
        simp only [h1, h2, h3, if_true, if_false]
        omega
      · have h3 : ¬ u < a := by rw [← h2]; exact lt_irrefl u
        have h4 : a = u := h2.symm
        simp only [h1, h3, h4, htu, lt_irrefl, if_true, if_false]
        omega
    · have h2 : ¬ u < a := fun hu => h1 (htu.trans hu)
      have h3 : ¬ a = u := by rintro rfl; exact h1 htu
      simp only [h1, h2, h3, if_false]
      omega

end RankLemmas

/-- C2: over the Total column of a clean table, rankMin is a minimum
competition ranking in descending order: a strictly larger Total gets a
strictly smaller rank, equal Totals get equal ranks, some student gets
rank 1 when the table is nonempty, every rank lies between 1 and the
number of students, and a rank is either 1 or exceeds the rank of the
next higher tie group by exactly the size of that group, so gaps appear
only after tie groups. -/
theorem C2_rank_is_min_competition (rows : List (List ℚ)) :
    (rows.map total ≠ [] →
       ∃ t ∈ rows.map total, rankMin (rows.map total) t = 1) ∧
    (∀ a ∈ rows.map total, ∀ b ∈ rows.map total, b < a →
       rankMin (rows.map total) a < rankMin (rows.map total) b) ∧
    (∀ a b : ℚ, a = b → rankMin (rows.map total) a = rankMin (rows.map total) b) ∧
    (∀ t ∈ rows.map total,
       1 ≤ rankMin (rows.map total) t ∧ rankMin (rows.map total) t ≤ rows.length) ∧
    (∀ t ∈ rows.map total,
       rankMin (rows.map total) t = 1 ∨
       ∃ u ∈ rows.map total, t < u ∧
         rankMin (rows.map total) t =
           rankMin (rows.map total) u +
             (rows.map total).countP (fun x => decide (x = u))) := by
  set L := rows.map total with hL
  refine ⟨?_, ?_, ?_, ?_, ?_⟩
  · intro hne
    obtain ⟨m, hm, hmax⟩ := list_exists_max hne
    refine ⟨m, hm, ?_⟩
    unfold rankMin
    have : L.countP (fun x => decide (m < x)) = 0 :=
      List.countP_eq_zero.mpr (fun a ha => by
        simp only [decide_eq_true_eq]
        exact not_lt_of_le (hmax a ha))
    omega
  · intro a ha b _ hba
    unfold rankMin
    have := countP_gt_strict ha hba
    omega
  · intro a b hab
    rw [hab]
  · intro t ht
    constructor
    · unfold rankMin; omega
    · unfold rankMin
      have := countP_gt_lt_length ht
      have hlen : L.length = rows.length := by rw [hL, List.length_map]
      omega
  · intro t ht
    by_cases hex : ∃ u ∈ L, t < u
    · right
      have hfil : L.filter (fun x => decide (t < x)) ≠ [] := by
        obtain ⟨u, hu, htu⟩ := hex
        intro hnil
        have : u ∈ L.filter (fun x => decide (t < x)) :=
          List.mem_filter.mpr ⟨hu, by simpa using htu⟩
        rw [hnil] at this
        simp at this
      obtain ⟨u, hu, humin⟩ := list_exists_min hfil
      have hu' : u ∈ L := (List.mem_filter.mp hu).1
      have htu : t < u := by
        have := (List.mem_filter.mp hu).2
        simpa using this
      refine ⟨u, hu', htu, ?_⟩
      have hmin : ∀ x ∈ L, t < x → u ≤ x := fun x hx htx =>
        humin x (List.mem_filter.mpr ⟨hx, by simpa using htx⟩)
      unfold rankMin
      rw [countP_gt_split htu hmin]
      omega
    · left
      push_neg at hex
      unfold rankMin
      have : L.countP (fun x => decide (t < x)) = 0 :=
        List.countP_eq_zero.mpr (fun a ha => by
          simp only [decide_eq_true_eq]
          exact not_lt_of_le (hex a ha))
      omega

/-- Witness for C2 on the example clean table: the student with Total
175 ranks strictly before the one with Total 100, and the rank of the
student with Total 170 lies between 1 and 3. -/
theorem C2_rank_is_min_competition_witness :
    rankMin ([[90, 80], [60, 40], [75, 100]].map total) (total [75, 100]) <
      rankMin ([[90, 80], [60, 40], [75, 100]].map total) (total [60, 40]) ∧
    1 ≤ rankMin ([[90, 80], [60, 40], [75, 100]].map total) (total [90, 80]) ∧
    rankMin ([[90, 80], [60, 40], [75, 100]].map total) (total [90, 80]) ≤
      ([[90, 80], [60, 40], [75, 100]] : List (List ℚ)).length := by
  refine ⟨?_, ?_, ?_⟩
  · exact (C2_rank_is_min_competition [[90, 80], [60, 40], [75, 100]]).2.1
      (total [75, 100]) (by simp [total])
      (total [60, 40]) (by simp [total])
      (by norm_num [total])
  · exact ((C2_rank_is_min_competition [[90, 80], [60, 40], [75, 100]]).2.2.2.1
      (total [90, 80]) (by simp [total])).1
  · exact ((C2_rank_is_min_competition [[90, 80], [60, 40], [75, 100]]).2.2.2.1
      (total [90, 80]) (by simp [total])).2

/-- The sum of squared deviations from the mean of a list. -/
def m2sum (xs : List ℚ) : ℚ := (xs.map (fun x => (x - average xs)^2)).sum

/-- The sum of cubed deviations from the mean of a list. -/
def m3sum (xs : List ℚ) : ℚ := (xs.map (fun x => (x - average xs)^3)).sum

/-- The square of df[subjects].std(axis=1) for one student row, the
Consistency field of student_consistency (lines 98-100).  pandas
Series.std uses the default ddof 1, so the value is the sample standard
deviation sqrt(S2 / (n - 1)) with S2 the sum of squared deviations and
n the number of subjects; the square S2 / (n - 1) is recorded, since a
nonnegative real is determined by its square.  For n below 2 the float
division 0 / 0 or by a negative count yields NaN, modelled as none. -/
def consistencySq (marks : List ℚ) : Option ℚ :=
  if 2 ≤ marks.length then some (m2sum marks / ((marks.length : ℚ) - 1)) else none

/-- Modelled from the words of the spec, for comparison with the code:
the population variance of a list, the square of the population standard
deviation with divisor the number of entries. -/
def popVar (xs : List ℚ) : ℚ := m2sum xs / (xs.length : ℚ)

/-- The square of arr.std(ddof=0) of subject_metrics (line 75): the
population variance of the column, NaN (none) for an empty column. -/
def subjectStdSq (xs : List ℚ) : Option ℚ :=
  if xs.length = 0 then none else some (m2sum xs / (xs.length : ℚ))

/-- The square of arr.skew() of subject_metrics (line 78).  pandas
nanskew computes n * sqrt(n - 1) / (n - 2) * S3 / S2^(3/2) with S2 and
S3 the sums of squared and cubed deviations, returns 0 where S2 = 0,
and NaN when the count is below 3; the square of that value is
n^2 * (n - 1) * S3^2 / ((n - 2)^2 * S2^3). -/
def skewSq (xs : List ℚ) : Option ℚ :=
  if xs.length < 3 then none
  else if m2sum xs = 0 then some 0
  else some (((xs.length : ℚ)^2 * ((xs.length : ℚ) - 1) * (m3sum xs)^2) /
             (((xs.length : ℚ) - 2)^2 * (m2sum xs)^3))

/-- Modelled from the words of the spec, for comparison with the code:
the population-convention third standardized moment g1 = m3 / m2^(3/2)
with m2 and m3 the population central moments, squared:
g1^2 = n * S3^2 / S2^3. -/
def popSkewSq (xs : List ℚ) : ℚ :=
  (xs.length : ℚ) * (m3sum xs)^2 / (m2sum xs)^3

/-- Counterexample to C4 as stated: for the student row with marks 90
and 80 the code computes Consistency^2 = S2 / (n - 1) = 50, while the
population standard deviation squared is 25; since both values are
squares of nonnegative reals, the standard deviations 50^(1/2) and 5
differ. -/
theorem C4_cex_consistency_not_population :
    consistencySq [(90 : ℚ), 80] = some 50 ∧
    popVar [(90 : ℚ), 80] = 25 ∧
    consistencySq [(90 : ℚ), 80] ≠ some (popVar [(90 : ℚ), 80]) := by
  have h1 : consistencySq [(90 : ℚ), 80] = some 50 := by
    simp [consistencySq, m2sum, average]
    norm_num
  have h2 : popVar [(90 : ℚ), 80] = 25 := by
    simp [popVar, m2sum, average]
    norm_num
  refine ⟨h1, h2, ?_⟩
  rw [h1, h2]
  simp

/-- C4 amended: the Consistency field is the sample standard deviation
of the student row, with divisor n - 1 rather than n: for at least two
subjects its square equals n / (n - 1) times the population variance of
the row, and for one subject it is NaN rather than 0. -/
theorem C4_consistency_is_sample_std (marks : List ℚ) (h : 2 ≤ marks.length) :
    consistencySq marks =
      some (((marks.length : ℚ) / ((marks.length : ℚ) - 1)) * popVar marks) := by
  have hn : (2 : ℚ) ≤ (marks.length : ℚ) := by exact_mod_cast h
  have h0 : (marks.length : ℚ) ≠ 0 := by linarith
  have h1 : (marks.length : ℚ) - 1 ≠ 0 := by
    intro he
    have : (marks.length : ℚ) = 1 := by linarith
    linarith
  unfold consistencySq popVar
  rw [if_pos h]
  congr 1
  field_simp
  ring

/-- Witness for the amended C4 at the row with marks 90 and 80. -/
theorem C4_consistency_is_sample_std_witness :
    consistencySq [(90 : ℚ), 80] =
      some ((((([(90 : ℚ), 80] : List ℚ).length : ℚ)) /
        ((([(90 : ℚ), 80] : List ℚ).length : ℚ) - 1)) * popVar [(90 : ℚ), 80]) :=
  C4_consistency_is_sample_std [(90 : ℚ), 80] (by simp)

/-- Counterexample to C8 as stated: the column with marks 0, 0, 1 has
nonzero variance; the code computes Skew^2 = 3 (pandas applies the
bias-correction factor n * sqrt(n-1) / (n-2)), while the population
third standardized moment squared is 1/2, so the two skewness values
differ. -/
theorem C8_cex_skew_not_population :
    m2sum [(0 : ℚ), 0, 1] ≠ 0 ∧
    skewSq [(0 : ℚ), 0, 1] = some 3 ∧
    popSkewSq [(0 : ℚ), 0, 1] = 1 / 2 ∧
    skewSq [(0 : ℚ), 0, 1] ≠ some (popSkewSq [(0 : ℚ), 0, 1]) := by
  have hm2 : m2sum [(0 : ℚ), 0, 1] = 2 / 3 := by
    simp [m2sum, average]
    norm_num
  have hm3 : m3sum [(0 : ℚ), 0, 1] = 2 / 9 := by
    simp [m3sum, average]
    norm_num
  have h1 : skewSq [(0 : ℚ), 0, 1] = some 3 := by
    rw [skewSq, if_neg (by simp), if_neg (by rw [hm2]; norm_num), hm2, hm3]
    norm_num
  have h2 : popSkewSq [(0 : ℚ), 0, 1] = 1 / 2 := by
    rw [popSkewSq, hm2, hm3]
    norm_num
  refine ⟨by rw [hm2]; norm_num, h1, h2, ?_⟩
  rw [h1, h2]
  simp
  norm_num

/-- C8 amended: the Skew of a subject column with nonzero variance is
the bias-corrected sample skewness G1 = sqrt(n(n-1)) / (n-2) * g1, not
the population moment g1 itself: its square is n(n-1)/(n-2)^2 times the
population third standardized moment squared. -/
theorem C8_skew_is_adjusted_moment (xs : List ℚ) (h3 : 3 ≤ xs.length)
    (hv : m2sum xs ≠ 0) :
    skewSq xs =
      some ((((xs.length : ℚ) * ((xs.length : ℚ) - 1)) / ((xs.length : ℚ) - 2)^2) *
        popSkewSq xs) := by
  have hn : (3 : ℚ) ≤ (xs.length : ℚ) := by exact_mod_cast h3
  have h2 : (xs.length : ℚ) - 2 ≠ 0 := by
    intro he
    have : (xs.length : ℚ) = 2 := by linarith
    linarith
  rw [skewSq, if_neg (by omega), if_neg hv]
  unfold popSkewSq
  congr 1
  field_simp
  ring

/-- Witness for the amended C8 at the column with marks 0, 0, 1. -/
theorem C8_skew_is_adjusted_moment_witness :
    skewSq [(0 : ℚ), 0, 1] =
      some ((((([(0 : ℚ), 0, 1] : List ℚ).length : ℚ) *
        ((([(0 : ℚ), 0, 1] : List ℚ).length : ℚ) - 1)) /
        ((([(0 : ℚ), 0, 1] : List ℚ).length : ℚ) - 2)^2) *
        popSkewSq [(0 : ℚ), 0, 1]) :=
  C8_skew_is_adjusted_moment [(0 : ℚ), 0, 1] (by simp)
    (by simp [m2sum, average]; norm_num)

section ConstantColumn

theorem average_of_constant {xs : List ℚ} {c : ℚ} (hne : xs ≠ [])
    (hall : ∀ x ∈ xs, x = c) : average xs = c := by
  have hsum : xs.sum = (xs.length : ℚ) * c := by
    induction xs with
    | nil => simp
    | cons a l ih =>
      have ha : a = c := hall a (List.mem_cons_self a l)
      rcases eq_or_ne l [] with rfl | hl
      · simp [ha]
      · have := ih hl (fun x hx => hall x (List.mem_cons_of_mem a hx))
        simp only [List.sum_cons, this, ha, List.length_cons]
        push_cast
        ring
  have hlen : (xs.length : ℚ) ≠ 0 := by
    have : xs.length ≠ 0 := fun h => hne (List.length_eq_zero.mp h)
    exact_mod_cast this
  unfold average
  rw [hsum]
  field_simp

theorem m2sum_of_constant {xs : List ℚ} {c : ℚ} (hne : xs ≠ [])
    (hall : ∀ x ∈ xs, x = c) : m2sum xs = 0 := by
  unfold m2sum
  apply List.sum_eq_zero
  intro y hy
  obtain ⟨x, hx, rfl⟩ := List.mem_map.mp hy
  rw [hall x hx, average_of_constant hne hall]
  ring

end ConstantColumn

/-- C9: for a subject column in which every student has the same mark,
subject_metrics computes Std = 0 (its square, the population variance,
is 0) and the Skew resolves to the defined fallback 0 of pandas nanskew
whenever the column has at least three entries; no error is raised, the
function is total and the pipeline continues.  With fewer than three
entries pandas returns NaN for Skew regardless of the variance, which
is the documented count cutoff, not an error. -/
theorem C9_zero_variance_std_zero_skew_fallback (xs : List ℚ) (c : ℚ)
    (hne : xs ≠ []) (hall : ∀ x ∈ xs, x = c) :
    subjectStdSq xs = some 0 ∧
    (3 ≤ xs.length → skewSq xs = some 0) ∧
    (xs.length < 3 → skewSq xs = none) := by
  have hm2 : m2sum xs = 0 := m2sum_of_constant hne hall
  have hlen : xs.length ≠ 0 := fun h => hne (List.length_eq_zero.mp h)
  refine ⟨?_, ?_, ?_⟩
  · rw [subjectStdSq, if_neg hlen, hm2]
    simp
  · intro h3
    rw [skewSq, if_neg (by omega), if_pos hm2]
  · intro h3
    rw [skewSq, if_pos h3]

/-- Witness for C9 at the column with marks 50, 50, 50, 50. -/
theorem C9_zero_variance_std_zero_skew_fallback_witness :
    subjectStdSq [(50 : ℚ), 50, 50, 50] = some 0 ∧
    skewSq [(50 : ℚ), 50, 50, 50] = some 0 := by
  have h := C9_zero_variance_std_zero_skew_fallback [(50 : ℚ), 50, 50, 50] 50
    (by simp) (by intro x hx; simpa using hx)
  exact ⟨h.1, h.2.1 (by simp)⟩

section AllInvalidColumn

theorem colMean_replicate_missing (n : ℕ) :
    colMean (List.replicate n .missing) = none := by
  have hnil : List.filterMap numOf (List.replicate n Value.missing) = [] :=
    List.filterMap_eq_nil.mpr (fun a ha => by
      rw [List.eq_of_mem_replicate ha]
      rfl)
  unfold colMean
  simp [hnil]

theorem cleanColumn_all_invalid (cells : List Value)
    (h : ∀ c ∈ cells, numOf (toNumeric c) = none) :
    cleanColumn cells = List.replicate cells.length .missing := by
  have hco : cells.map toNumeric = List.replicate cells.length .missing := by
    refine List.eq_replicate.mpr ⟨by simp, ?_⟩
    intro b hb
    obtain ⟨c, hc, rfl⟩ := List.mem_map.mp hb
    have hn := h c hc
    cases c with
    | num q => simp [toNumeric, numOf] at hn
    | text s => rfl
    | missing => rfl
  unfold cleanColumn
  rw [hco, colMean_replicate_missing]
  unfold fillna
  rw [List.map_replicate]
  rfl

end AllInvalidColumn

/-- The raw table with a subject column in which no cell coerces: both
Math cells are non-numeric text. -/
def emptySubjectRaw : Table :=
  [("StudentID", [.num 1, .num 2]),
   ("Math", [.text "bad", .text "worse"])]

/-- Counterexample to C6 as stated: on a table whose Math column has no
coercible cell, the pipeline does not fail and does not report the
column; clean_data returns normally, the Math cells stay missing (NaN),
and the downstream column mean is NaN, exactly the silent propagation
the claim excludes. -/
theorem C6_cex_no_error_on_all_invalid_column :
    clean_data emptySubjectRaw (get_subject_columns ["StudentID", "Math"]) =
      [("StudentID", [.num 1, .num 2]), ("Math", [.missing, .missing])] ∧
    lookupCol (clean_data emptySubjectRaw (get_subject_columns ["StudentID", "Math"])) "Math"
      = some [.missing, .missing] ∧
    colMean [.missing, .missing] = none := by
  have h1 : clean_data emptySubjectRaw (get_subject_columns ["StudentID", "Math"]) =
      [("StudentID", [.num 1, .num 2]), ("Math", [.missing, .missing])] := by
    rw [show get_subject_columns ["StudentID", "Math"] = ["Math"] from by decide]
    simp [clean_data, emptySubjectRaw, cleanColumn, fillna, colMean, toNumeric,
      numOf, stripCell, fillCell]
  refine ⟨h1, ?_, ?_⟩
  · rw [h1]
    simp [lookupCol, List.find?]
  · exact colMean_replicate_missing 2

/-- C6 amended: for a subject column with no coercible numeric value the
pipeline raises nothing: the mean of the coerced column is NaN, fillna
with NaN leaves every cell missing, the cleaned column is entirely
missing, and its mean stays NaN for downstream consumers. -/
theorem C6_all_invalid_column_stays_missing (cells : List Value)
    (h : ∀ c ∈ cells, numOf (toNumeric c) = none) :
    cleanColumn cells = List.replicate cells.length .missing ∧
    colMean (cleanColumn cells) = none := by
  have hc := cleanColumn_all_invalid cells h
  exact ⟨hc, by rw [hc]; exact colMean_replicate_missing cells.length⟩

/-- Witness for the amended C6 at the all-invalid Math column. -/
theorem C6_all_invalid_column_stays_missing_witness :
    cleanColumn [.text "bad", .text "worse"] = List.replicate 2 .missing ∧
    colMean (cleanColumn [.text "bad", .text "worse"]) = none :=
  C6_all_invalid_column_stays_missing [.text "bad", .text "worse"] (by decide)

/-- The number of rows of a DataFrame: the length of its first column
(all columns of a well-formed frame have the same length). -/
def nrows (t : Table) : ℕ :=
  match t with
  | [] => 0
  | c :: _ => c.2.length

/-- The marks of student i across the subject columns, in subject order:
df[subjects] row access on a clean table. -/
def rowMarks (t : Table) (subjects : List String) (i : ℕ) : List ℚ :=
  subjects.filterMap (fun s =>
    ((lookupCol t s).bind (fun cells => cells.get? i)).bind numOf)

/-- The per-student mark rows of a table. -/
def tableRows (t : Table) (subjects : List String) : List (List ℚ) :=
  (List.range (nrows t)).map (rowMarks t subjects)

/-- run_pipeline (lines 174-189) restricted to its analytical core:
detect subjects, clean, then derive Totals and Grades.  The source has
no schema check and no error path before or after cleaning; whatever
identifier columns are absent, it proceeds. -/
def run_pipeline_core (t : Table) : Table × List ℚ × List String :=
  let subjects := get_subject_columns (t.map (fun c => c.1))
  let c := clean_data t subjects
  let rows := tableRows c subjects
  (c, rows.map total, rows.map (fun row => assign_grade (average row)))

/-- A raw table missing the identifier columns Name, Class and
Section. -/
def missingIdsRaw : Table :=
  [("StudentID", [.num 1, .num 2]),
   ("Math", [.num 90, .num 60])]

theorem cleanColumn_length (cells : List Value) :
    (cleanColumn cells).length = cells.length := by
  simp [cleanColumn, fillna]

theorem nrows_clean_data (t : Table) (subjects : List String) :
    nrows (clean_data t subjects) = nrows t := by
  cases t with
  | nil => rfl
  | cons c cs =>
    unfold clean_data nrows
    simp only [List.map_cons]
    split_ifs
    · exact cleanColumn_length _ |>.trans (by simp)
    · simp

/-- Counterexample to C7 as stated: on a table missing the Name, Class
and Section identifier columns the pipeline raises nothing and does not
abort before cleaning; get_subject_columns silently treats every
remaining column as a subject and run_pipeline_core produces a complete
report with totals 90, 60 and grades A, C. -/
theorem C7_cex_no_schema_check :
    get_subject_columns ["StudentID", "Math"] = ["Math"] ∧
    (run_pipeline_core missingIdsRaw).2.1 = [90, 60] ∧
    (run_pipeline_core missingIdsRaw).2.2 = ["A", "C"] := by
  refine ⟨by decide, ?_, ?_⟩
  · simp [run_pipeline_core, missingIdsRaw, clean_data, cleanColumn, fillna,
      colMean, toNumeric, numOf, stripCell, fillCell, tableRows, nrows,
      rowMarks, lookupCol, List.find?, total, get_subject_columns, non_subjects,
      List.range_succ]
  · simp [run_pipeline_core, missingIdsRaw, clean_data, cleanColumn, fillna,
      colMean, toNumeric, numOf, stripCell, fillCell, tableRows, nrows,
      rowMarks, lookupCol, List.find?, total, average, assign_grade,
      get_subject_columns, non_subjects, List.range_succ]
    norm_num

/-- C7 amended: there is no schema check; for every input table,
identifier columns present or not, the pipeline produces a report with
one Total and one Grade per row and one output column per input
column. -/
theorem C7_pipeline_always_produces_report (t : Table) :
    ((run_pipeline_core t).2.1).length = nrows t ∧
    ((run_pipeline_core t).2.2).length = nrows t ∧
    ((run_pipeline_core t).1).length = t.length := by
  refine ⟨?_, ?_, ?_⟩
  · simp [run_pipeline_core, tableRows, nrows_clean_data]
  · simp [run_pipeline_core, tableRows, nrows_clean_data]
  · simp [run_pipeline_core, clean_data]

/-- One finalized student record as seen by get_top_bottom_students: a
row position and its Average; only the Average takes part in the
selection. -/
structure StudentRec where
  sid : ℕ
  Average : ℚ
deriving DecidableEq, Repr

/-- The SMALL_QUICKSORT threshold of numpy npysort: a segment of more
than 15 entries is partitioned, a smaller one is insertion sorted. -/
def smallQuicksort : ℕ := 15

def msbAux : ℕ → ℕ → ℕ
  | 0, _ => 0
  | fuel + 1, n => if 1 < n then msbAux fuel (n / 2) + 1 else 0

/-- npy_get_msb: the index of the highest set bit.  The introsort depth
budget is twice this value. -/
def npyGetMsb (n : ℕ) : ℕ := msbAux n n

/-- INTP_SWAP of two entries of the index array. -/
def swapL (l : List ℕ) (i j : ℕ) : List ℕ :=
  (l.set i (l.getD j 0)).set j (l.getD i 0)

/-- v[tosort[i]]: the key behind position i of the index array. -/
def kv (keys : List ℚ) (a : List ℕ) (i : ℕ) : ℚ :=
  keys.getD (a.getD i 0) 0

/-- The upward scan of the numpy partition: advance pi past entries
with key strictly below the pivot (do ++pi while LT(v[*pi], vp)). -/
def scanUp (keys : List ℚ) (a : List ℕ) (vp : ℚ) : ℕ → ℕ → ℕ
  | 0, pi => pi + 1
  | fuel + 1, pi =>
      if kv keys a (pi + 1) < vp then scanUp keys a vp fuel (pi + 1) else pi + 1

/-- The downward scan: move pj past entries with key strictly above the
pivot (do --pj while LT(vp, v[*pj])). -/
def scanDown (keys : List ℚ) (a : List ℕ) (vp : ℚ) : ℕ → ℕ → ℕ
  | 0, pj => pj - 1
  | fuel + 1, pj =>
      if vp < kv keys a (pj - 1) then scanDown keys a vp fuel (pj - 1) else pj - 1

/-- The crossing loop of the numpy partition: scan from both ends and
swap the out-of-place pair until the scans meet; the swaps reorder
entries with keys equal to the pivot. -/
def partLoop (keys : List ℚ) (vp : ℚ) : ℕ → List ℕ → ℕ → ℕ → List ℕ × ℕ
  | 0, a, pi, _ => (a, pi)
  | fuel + 1, a, pi, pj =>
      let pi1 := scanUp keys a vp a.length pi
      let pj1 := scanDown keys a vp a.length pj
      if pi1 ≥ pj1 then (a, pi1)
      else partLoop keys vp fuel (swapL a pi1 pj1) pi1 pj1

/-- One quicksort partition of numpy aquicksort on the segment pl..pr:
median-of-3 pivot selection by three conditional swaps, the pivot
parked at pr-1, the crossing loop, and the pivot swapped back to the
split point. -/
def partitionStep (keys : List ℚ) (a : List ℕ) (pl pr : ℕ) : List ℕ × ℕ :=
  let pm := pl + (pr - pl) / 2
  let a1 := if kv keys a pm < kv keys a pl then swapL a pm pl else a
  let a2 := if kv keys a1 pr < kv keys a1 pm then swapL a1 pr pm else a1
  let a3 := if kv keys a2 pm < kv keys a2 pl then swapL a2 pm pl else a2
  let vp := kv keys a3 pm
  let a4 := swapL a3 pm (pr - 1)
  let s := partLoop keys vp a4.length a4 pl (pr - 1)
  (swapL s.1 s.2 (pr - 1), s.2)

/-- One step of the numpy insertion sort, on the reversed sorted
prefix: walk from the right end over entries with key strictly greater
than the inserted one and drop it behind them, so an entry never moves
past one of equal key (stability). -/
def insertRevIdx (keys : List ℚ) (x : ℕ) : List ℕ → List ℕ
  | [] => [x]
  | y :: t =>
      if keys.getD x 0 < keys.getD y 0 then y :: insertRevIdx keys x t
      else x :: y :: t

/-- Insert one index into a sorted prefix, scanning from its right end
as the numpy insertion sort does. -/
def insertIdx (keys : List ℚ) (x : ℕ) (l : List ℕ) : List ℕ :=
  (insertRevIdx keys x l.reverse).reverse

/-- The insertion sort numpy aquicksort applies to a segment of at most
16 entries: each element in turn is inserted into the sorted prefix. -/
def insertionPass (keys : List ℚ) (seg : List ℕ) : List ℕ :=
  seg.foldl (fun acc i => insertIdx keys i acc) []

/-- The segment pl..pr of the index array. -/
def segOf (a : List ℕ) (pl pr : ℕ) : List ℕ := (a.drop pl).take (pr + 1 - pl)

/-- Write a sorted segment back into the index array at position pl. -/
def putSeg (a : List ℕ) (pl : ℕ) (seg : List ℕ) : List ℕ :=
  a.take pl ++ seg ++ a.drop (pl + seg.length)

/-- One-based read a[i] of the heapsort view of the segment at lo. -/
def ga (a : List ℕ) (lo i : ℕ) : ℕ := a.getD (lo + i - 1) 0

/-- One-based write a[i] of the heapsort view of the segment at lo. -/
def sa (a : List ℕ) (lo i x : ℕ) : List ℕ := a.set (lo + i - 1) x

/-- The sift-down loop shared by both phases of numpy aheapsort. -/
def heapSift (keys : List ℚ) (lo n tmp : ℕ) : ℕ → List ℕ → ℕ → ℕ → List ℕ × ℕ
  | 0, a, i, _ => (a, i)
  | fuel + 1, a, i, j =>
      if j ≤ n then
        let j1 := if j < n ∧ keys.getD (ga a lo j) 0 < keys.getD (ga a lo (j + 1)) 0
                  then j + 1 else j
        if keys.getD tmp 0 < keys.getD (ga a lo j1) 0 then
          heapSift keys lo n tmp fuel (sa a lo i (ga a lo j1)) j1 (j1 + j1)
        else (a, i)
      else (a, i)

/-- Heap construction of numpy aheapsort: sift down from n/2 to 1. -/
def heapPhase1 (keys : List ℚ) (lo n : ℕ) : ℕ → List ℕ → List ℕ
  | 0, a => a
  | l + 1, a =>
      let tmp := ga a lo (l + 1)
      let s := heapSift keys lo n tmp (n + 2) a (l + 1) (2 * (l + 1))
      heapPhase1 keys lo n l (sa s.1 lo s.2 tmp)

/-- Extraction of numpy aheapsort: repeatedly swap the root out and
sift the shrunk heap. -/
def heapPhase2 (keys : List ℚ) (lo : ℕ) : ℕ → List ℕ → List ℕ
  | 0, a => a
  | 1, a => a
  | m + 2, a =>
      let tmp := ga a lo (m + 2)
      let a1 := sa a lo (m + 2) (ga a lo 1)
      let s := heapSift keys lo (m + 1) tmp (m + 3) a1 1 2
      heapPhase2 keys lo (m + 1) (sa s.1 lo s.2 tmp)

/-- numpy aheapsort of the n entries of the index array starting at lo,
the introsort fallback when the partition depth budget runs out. -/
def aheapsortSeg (keys : List ℚ) (a : List ℕ) (lo n : ℕ) : List ℕ :=
  heapPhase2 keys lo n (heapPhase1 keys lo n (n / 2) a)

/-- The driver loop of numpy aquicksort: heapsort the segment when the
depth budget is exhausted, partition it while it holds more than
SMALL_QUICKSORT entries pushing the larger half on the stack, insertion
sort it otherwise, then pop the next segment. -/
def aqsLoop (keys : List ℚ) : ℕ → List ℕ → ℕ → ℕ → List (ℕ × ℕ × ℤ) → ℤ → List ℕ
  | 0, a, _, _, _, _ => a
  | fuel + 1, a, pl, pr, stk, cdepth =>
      if cdepth < 0 then
        let a1 := aheapsortSeg keys a pl (pr + 1 - pl)
        match stk with
        | [] => a1
        | (pl1, pr1, d1) :: rest => aqsLoop keys fuel a1 pl1 pr1 rest d1
      else if pr - pl > smallQuicksort then
        let s := partitionStep keys a pl pr
        let cd1 := cdepth - 1
        if s.2 - pl < pr - s.2 then
          aqsLoop keys fuel s.1 pl (s.2 - 1) ((s.2 + 1, pr, cd1) :: stk) cd1
        else
          aqsLoop keys fuel s.1 (s.2 + 1) pr ((pl, s.2 - 1, cd1) :: stk) cd1
      else
        let a1 := putSeg a pl (insertionPass keys (segOf a pl pr))
        match stk with
        | [] => a1
        | (pl1, pr1, d1) :: rest => aqsLoop keys fuel a1 pl1 pr1 rest d1

/-- numpy argsort with the default kind quicksort on a float column:
introsort over the index array 0..n-1.  The fuel bounds the number of
partitions plus stack pops, which never exceeds it. -/
def npArgsort (keys : List ℚ) : List ℕ :=
  aqsLoop keys (4 * keys.length + 4) (List.range keys.length) 0 (keys.length - 1) []
    (2 * (npyGetMsb keys.length : ℤ))

/-- df.sort_values(by='Average') (line 109): pandas nargsort argsorts
the Average column with numpy argsort kind quicksort and reindexes the
rows by the result. -/
def sort_values_asc (recs : List StudentRec) : List StudentRec :=
  (npArgsort (recs.map (fun r => r.Average))).map (fun i => recs.getD i ⟨0, 0⟩)

/-- df.sort_values(by='Average', ascending=False) (line 108): pandas
nargsort reverses the rows and the key column, argsorts ascending, and
reverses the resulting order. -/
def sort_values_desc (recs : List StudentRec) : List StudentRec :=
  (sort_values_asc recs.reverse).reverse

/-- get_top_bottom_students (lines 107-110): the first top_n rows of the
descending sort and the first top_n rows of the ascending sort; the
source defaults top_n to 5. -/
def get_top_bottom_students (recs : List StudentRec) (top_n : ℕ) :
    List StudentRec × List StudentRec :=
  ((sort_values_desc recs).take top_n, (sort_values_asc recs).take top_n)

/-- Seventeen students whose Averages are all equal: one more row than
the SMALL_QUICKSORT cutoff, so the argsort partitions once. -/
def allTied17 : List StudentRec :=
  [⟨0, 50⟩, ⟨1, 50⟩, ⟨2, 50⟩, ⟨3, 50⟩, ⟨4, 50⟩, ⟨5, 50⟩, ⟨6, 50⟩, ⟨7, 50⟩,
   ⟨8, 50⟩, ⟨9, 50⟩, ⟨10, 50⟩, ⟨11, 50⟩, ⟨12, 50⟩, ⟨13, 50⟩, ⟨14, 50⟩,
   ⟨15, 50⟩, ⟨16, 50⟩]

section SelectionLemmas

theorem insertRevIdx_perm (keys : List ℚ) (x : ℕ) (m : List ℕ) :
    (insertRevIdx keys x m).Perm (x :: m) := by
  induction m with
  | nil => exact List.Perm.refl _
  | cons y t ih =>
    by_cases h : keys.getD x 0 < keys.getD y 0
    · simp only [insertRevIdx, if_pos h]
      exact (ih.cons y).trans (List.Perm.swap x y t)
    · simp only [insertRevIdx, if_neg h]
      exact List.Perm.refl _

theorem insertIdx_perm (keys : List ℚ) (x : ℕ) (l : List ℕ) :
    (insertIdx keys x l).Perm (x :: l) := by
  unfold insertIdx
  exact (List.reverse_perm _).trans
    ((insertRevIdx_perm keys x l.reverse).trans ((List.reverse_perm l).cons x))

theorem foldl_insertIdx_perm (keys : List ℚ) (seg : List ℕ) :
    ∀ acc, (seg.foldl (fun acc i => insertIdx keys i acc) acc).Perm (acc ++ seg) := by
  induction seg with
  | nil => intro acc; simp
  | cons i rest ih =>
    intro acc
    rw [List.foldl_cons]
    refine (ih (insertIdx keys i acc)).trans ?_
    have h1 : (insertIdx keys i acc ++ rest).Perm ((i :: acc) ++ rest) :=
      (insertIdx_perm keys i acc).append_right rest
    refine h1.trans ?_
    rw [List.cons_append]
    exact List.perm_middle.symm

theorem insertionPass_perm (keys : List ℚ) (seg : List ℕ) :
    (insertionPass keys seg).Perm seg := by
  have h := foldl_insertIdx_perm keys seg []
  simpa [insertionPass] using h

theorem insertionPass_length (keys : List ℚ) (seg : List ℕ) :
    (insertionPass keys seg).length = seg.length :=
  (insertionPass_perm keys seg).length_eq

theorem npArgsort_small (keys : List ℚ) (h : keys.length ≤ 16) :
    npArgsort keys = insertionPass keys (List.range keys.length) := by
  have hfuel : 4 * keys.length + 4 = (4 * keys.length + 3) + 1 := rfl
  have hmsb0 : (0 : ℤ) ≤ 2 * (npyGetMsb keys.length : ℤ) := by positivity
  have hmsb : ¬ (2 * (npyGetMsb keys.length : ℤ) < 0) := not_lt.mpr hmsb0
  have hsmall : ¬ (keys.length - 1 - 0 > smallQuicksort) := by
    simp only [smallQuicksort]
    omega
  have hseg : segOf (List.range keys.length) 0 (keys.length - 1) = List.range keys.length := by
    unfold segOf
    rw [List.drop_zero]
    exact List.take_of_length_le (by rw [List.length_range]; omega)
  have hdrop : List.drop keys.length (List.range keys.length) = [] := by
    have h2 := List.drop_length (List.range keys.length)
    rwa [List.length_range] at h2
  rw [npArgsort, hfuel, aqsLoop, if_neg hmsb, if_neg hsmall]
  simp only [hseg, putSeg, List.take_zero, List.nil_append, insertionPass_length,
    List.length_range, Nat.zero_add, hdrop, List.append_nil]

theorem insertRevIdx_sorted (keys : List ℚ) (x : ℕ) {m : List ℕ}
    (hm : m.Pairwise (fun i j => keys.getD j 0 ≤ keys.getD i 0)) :
    (insertRevIdx keys x m).Pairwise (fun i j => keys.getD j 0 ≤ keys.getD i 0) := by
  induction m with
  | nil => simp [insertRevIdx]
  | cons y t ih =>
    rw [List.pairwise_cons] at hm
    by_cases h : keys.getD x 0 < keys.getD y 0
    · simp only [insertRevIdx, if_pos h]
      rw [List.pairwise_cons]
      refine ⟨?_, ih hm.2⟩
      intro z hz
      rcases List.mem_cons.mp ((insertRevIdx_perm keys x t).mem_iff.mp hz) with rfl | hz'
      · exact le_of_lt h
      · exact hm.1 z hz'
    · simp only [insertRevIdx, if_neg h]
      rw [List.pairwise_cons]
      refine ⟨?_, List.pairwise_cons.mpr hm⟩
      intro z hz
      rcases List.mem_cons.mp hz with rfl | hz'
      · exact not_lt.mp h
      · exact (hm.1 z hz').trans (not_lt.mp h)

theorem insertIdx_sorted (keys : List ℚ) (x : ℕ) {l : List ℕ}
    (hl : l.Pairwise (fun i j => keys.getD i 0 ≤ keys.getD j 0)) :
    (insertIdx keys x l).Pairwise (fun i j => keys.getD i 0 ≤ keys.getD j 0) := by
  unfold insertIdx
  rw [List.pairwise_reverse]
  exact insertRevIdx_sorted keys x (List.pairwise_reverse.mpr hl)

theorem foldl_insertIdx_sorted (keys : List ℚ) (seg : List ℕ) :
    ∀ acc, acc.Pairwise (fun i j => keys.getD i 0 ≤ keys.getD j 0) →
    (seg.foldl (fun acc i => insertIdx keys i acc) acc).Pairwise
      (fun i j => keys.getD i 0 ≤ keys.getD j 0) := by
  induction seg with
  | nil => intro acc hacc; exact hacc
  | cons i rest ih =>
    intro acc hacc
    rw [List.foldl_cons]
    exact ih _ (insertIdx_sorted keys i hacc)

theorem insertionPass_sorted (keys : List ℚ) (seg : List ℕ) :
    (insertionPass keys seg).Pairwise (fun i j => keys.getD i 0 ≤ keys.getD j 0) :=
  foldl_insertIdx_sorted keys seg [] (List.Pairwise.nil)

theorem insertRevIdx_filter (keys : List ℚ) (x : ℕ) (p : ℕ → Bool)
    (hkey : ∀ y, p x = true → keys.getD x 0 < keys.getD y 0 → p y = false)
    (m : List ℕ) :
    (insertRevIdx keys x m).filter p =
      (if p x = true then [x] else []) ++ m.filter p := by
  induction m with
  | nil =>
    simp only [insertRevIdx, List.filter_cons, List.filter_nil]
    by_cases hx : p x = true <;> simp [hx]
  | cons y t ih =>
    by_cases h : keys.getD x 0 < keys.getD y 0
    · simp only [insertRevIdx, if_pos h, List.filter_cons, ih]
      by_cases hx : p x = true
      · have hy : p y = false := hkey y hx h
        simp [hx, hy]
      · simp [hx]
    · simp only [insertRevIdx, if_neg h, List.filter_cons]
      by_cases hx : p x = true <;> simp [hx]

theorem insertIdx_filter (keys : List ℚ) (x : ℕ) (p : ℕ → Bool)
    (hkey : ∀ y, p x = true → keys.getD x 0 < keys.getD y 0 → p y = false)
    (l : List ℕ) :
    (insertIdx keys x l).filter p =
      l.filter p ++ (if p x = true then [x] else []) := by
  unfold insertIdx
  rw [← List.reverse_reverse (List.filter p (insertRevIdx keys x l.reverse).reverse)]
  rw [← List.filter_reverse, List.reverse_reverse, insertRevIdx_filter keys x p hkey,
    List.reverse_append, List.filter_reverse, List.reverse_reverse]
  congr 1
  by_cases hx : p x = true <;> simp [hx]

theorem foldl_insertIdx_filter (keys : List ℚ) (p : ℕ → Bool)
    (hkey : ∀ x y, p x = true → keys.getD x 0 < keys.getD y 0 → p y = false)
    (seg : List ℕ) :
    ∀ acc, (seg.foldl (fun acc i => insertIdx keys i acc) acc).filter p =
      acc.filter p ++ seg.filter p := by
  induction seg with
  | nil => intro acc; simp
  | cons i rest ih =>
    intro acc
    rw [List.foldl_cons, ih, insertIdx_filter keys i p (hkey i), List.filter_cons]
    by_cases hx : p i = true
    · simp [hx]
    · simp [hx]

theorem insertionPass_filter (keys : List ℚ) (p : ℕ → Bool)
    (hkey : ∀ x y, p x = true → keys.getD x 0 < keys.getD y 0 → p y = false)
    (seg : List ℕ) :
    (insertionPass keys seg).filter p = seg.filter p := by
  have h := foldl_insertIdx_filter keys p hkey seg []
  simpa [insertionPass] using h

theorem map_getD_range (recs : List StudentRec) (d : StudentRec) :
    (List.range recs.length).map (fun i => recs.getD i d) = recs := by
  induction recs with
  | nil => simp
  | cons a t ih =>
    rw [List.length_cons, List.range_succ_eq_map, List.map_cons, List.map_map]
    have hfun : ((fun i => (a :: t).getD i d) ∘ Nat.succ) = fun i => t.getD i d := rfl
    rw [hfun, ih]
    rfl

theorem avg_keys_getD (recs : List StudentRec) (i : ℕ) (h : i < recs.length) :
    (recs.map (fun r => r.Average)).getD i 0 = (recs.getD i ⟨0, 0⟩).Average := by
  rw [List.getD_eq_getElem?_getD, List.getD_eq_getElem?_getD, List.getElem?_map,
    List.getElem?_eq_getElem h]
  simp

theorem q_iff_keys (recs : List StudentRec) (v : ℚ) (z : ℕ) :
    ((fun r => decide (r.Average = v)) ∘ fun i => recs.getD i ⟨0, 0⟩) z = true ↔
      (recs.map (fun r => r.Average)).getD z 0 = v := by
  by_cases hz : z < recs.length
  · simp only [Function.comp_apply, decide_eq_true_eq, avg_keys_getD recs z hz]
  · have h1 : recs.getD z ⟨0, 0⟩ = ⟨0, 0⟩ :=
      List.getD_eq_default _ _ (le_of_not_lt hz)
    have h2 : (recs.map (fun r => r.Average)).getD z 0 = 0 :=
      List.getD_eq_default _ _ (by rw [List.length_map]; exact le_of_not_lt hz)
    simp only [Function.comp_apply, h1, h2, decide_eq_true_eq]

theorem sort_values_asc_perm (recs : List StudentRec) (h : recs.length ≤ 16) :
    (sort_values_asc recs).Perm recs := by
  unfold sort_values_asc
  have hk : (recs.map (fun r => r.Average)).length = recs.length := List.length_map _ _
  rw [npArgsort_small _ (by rw [hk]; exact h), hk]
  refine ((insertionPass_perm _ _).map _).trans ?_
  rw [map_getD_range]

theorem sort_values_asc_sorted (recs : List StudentRec) (h : recs.length ≤ 16) :
    (sort_values_asc recs).Pairwise (fun a b => a.Average ≤ b.Average) := by
  unfold sort_values_asc
  have hk : (recs.map (fun r => r.Average)).length = recs.length := List.length_map _ _
  rw [npArgsort_small _ (by rw [hk]; exact h)]
  rw [List.pairwise_map]
  have hsorted := insertionPass_sorted (recs.map (fun r => r.Average))
    (List.range (recs.map (fun r => r.Average)).length)
  refine hsorted.imp_of_mem ?_
  intro i j hi hj hle
  have hi' : i < recs.length := by
    have hm := (insertionPass_perm _ _).mem_iff.mp hi
    rw [List.mem_range, hk] at hm
    exact hm
  have hj' : j < recs.length := by
    have hm := (insertionPass_perm _ _).mem_iff.mp hj
    rw [List.mem_range, hk] at hm
    exact hm
  rw [avg_keys_getD recs i hi', avg_keys_getD recs j hj'] at hle
  exact hle

theorem sort_values_asc_filter (recs : List StudentRec) (h : recs.length ≤ 16) (v : ℚ) :
    (sort_values_asc recs).filter (fun r => decide (r.Average = v)) =
      recs.filter (fun r => decide (r.Average = v)) := by
  unfold sort_values_asc
  have hk : (recs.map (fun r => r.Average)).length = recs.length := List.length_map _ _
  rw [npArgsort_small _ (by rw [hk]; exact h), List.filter_map]
  have hkeyq : ∀ x y,
      ((fun r => decide (r.Average = v)) ∘ fun i => recs.getD i ⟨0, 0⟩) x = true →
      (recs.map (fun r => r.Average)).getD x 0 < (recs.map (fun r => r.Average)).getD y 0 →
      ((fun r => decide (r.Average = v)) ∘ fun i => recs.getD i ⟨0, 0⟩) y = false := by
    intro x y hx hlt
    have hvx := (q_iff_keys recs v x).mp hx
    rw [Bool.eq_false_iff]
    intro hy
    have hvy := (q_iff_keys recs v y).mp hy
    rw [hvx, hvy] at hlt
    exact lt_irrefl v hlt
  rw [insertionPass_filter _ _ hkeyq, ← List.filter_map, hk, map_getD_range]

theorem sort_values_desc_perm (recs : List StudentRec) (h : recs.length ≤ 16) :
    (sort_values_desc recs).Perm recs := by
  unfold sort_values_desc
  exact (List.reverse_perm _).trans
    ((sort_values_asc_perm recs.reverse (by rw [List.length_reverse]; exact h)).trans
      (List.reverse_perm recs))

theorem sort_values_desc_sorted (recs : List StudentRec) (h : recs.length ≤ 16) :
    (sort_values_desc recs).Pairwise (fun a b => b.Average ≤ a.Average) := by
  unfold sort_values_desc
  rw [List.pairwise_reverse]
  exact sort_values_asc_sorted recs.reverse (by rw [List.length_reverse]; exact h)

theorem sort_values_desc_filter (recs : List StudentRec) (h : recs.length ≤ 16) (v : ℚ) :
    (sort_values_desc recs).filter (fun r => decide (r.Average = v)) =
      recs.filter (fun r => decide (r.Average = v)) := by
  unfold sort_values_desc
  rw [List.filter_reverse,
    sort_values_asc_filter recs.reverse (by rw [List.length_reverse]; exact h) v,
    List.filter_reverse, List.reverse_reverse]

theorem take_of_sorted_perm {s recs : List StudentRec}
    {R : StudentRec → StudentRec → Prop}
    (hperm : s.Perm recs) (hsort : s.Pairwise R) (n : ℕ) :
    (s.take n).length = min n recs.length ∧
    (s.take n).Pairwise R ∧
    (∃ rest, (s.take n ++ rest).Perm recs ∧
       ∀ a ∈ s.take n, ∀ b ∈ rest, R a b) ∧
    (recs.length < n → (s.take n).Perm recs) := by
  refine ⟨?_, ?_, ?_, ?_⟩
  · rw [List.length_take, hperm.length_eq]
  · exact List.Pairwise.sublist (List.take_sublist n s) hsort
  · refine ⟨s.drop n, ?_, ?_⟩
    · rw [List.take_append_drop]
      exact hperm
    · have h := hsort
      conv at h => rw [← List.take_append_drop n s]
      exact (List.pairwise_append.mp h).2.2
  · intro hlt
    rw [List.take_of_length_le (le_of_lt (by rwa [hperm.length_eq]))]
    exact hperm

end SelectionLemmas

/-- Counterexample to C5 as stated: the sorts of get_top_bottom_students
are not stable on equal Averages.  sort_values uses the default numpy
argsort kind quicksort, which partitions any segment of more than 15
rows, and the partition swaps reorder entries with equal keys.  On the
17-student collection in which every Average is 50, a sort that is
stable in either direction returns the collection unchanged, yet the
Bottom selection with top_n = 17 comes back with the rows scrambled to
the order 0, 14, 13, 12, 11, 10, 9, 15, 8, 6, 5, 4, 3, 2, 1, 7, 16,
and neither selection preserves the original order of the tied rows. -/
theorem C5_cex_sort_values_not_stable :
    (∀ r ∈ allTied17, r.Average = 50) ∧
    (get_top_bottom_students allTied17 17).2 =
      [⟨0, 50⟩, ⟨14, 50⟩, ⟨13, 50⟩, ⟨12, 50⟩, ⟨11, 50⟩, ⟨10, 50⟩, ⟨9, 50⟩,
       ⟨15, 50⟩, ⟨8, 50⟩, ⟨6, 50⟩, ⟨5, 50⟩, ⟨4, 50⟩, ⟨3, 50⟩, ⟨2, 50⟩,
       ⟨1, 50⟩, ⟨7, 50⟩, ⟨16, 50⟩] ∧
    (get_top_bottom_students allTied17 17).2 ≠ allTied17 ∧
    ((get_top_bottom_students allTied17 17).2).filter
        (fun r => decide (r.Average = 50)) ≠
      allTied17.filter (fun r => decide (r.Average = 50)) ∧
    (get_top_bottom_students allTied17 17).1 ≠ allTied17 :=
  ⟨by decide, by decide, by decide, by decide, by decide⟩

/-- C5 amended: on collections of at most 16 students, where numpy
argsort runs its stable insertion sort, the Top selection is the first
top_n records sorted by Average descending and the Bottom selection the
first top_n sorted ascending, both stable on equal Averages: each
selection has length min(top_n, number of students), is sorted in its
direction, extends to a permutation of the collection in which every
unselected record is no better placed than every selected one, keeps
records of equal Average as a subsequence of their original order, and
when the student count is below top_n each selection is a permutation
of the whole collection.  Beyond 16 students the tie order is whatever
the introsort partition produces and is not guaranteed stable. -/
theorem C5_top_bottom_selection_small (recs : List StudentRec) (n : ℕ)
    (h16 : recs.length ≤ 16) :
    ((get_top_bottom_students recs n).1).length = min n recs.length ∧
    ((get_top_bottom_students recs n).2).length = min n recs.length ∧
    ((get_top_bottom_students recs n).1).Pairwise (fun a b => b.Average ≤ a.Average) ∧
    ((get_top_bottom_students recs n).2).Pairwise (fun a b => a.Average ≤ b.Average) ∧
    (∃ rest, ((get_top_bottom_students recs n).1 ++ rest).Perm recs ∧
       ∀ a ∈ (get_top_bottom_students recs n).1, ∀ b ∈ rest, b.Average ≤ a.Average) ∧
    (∃ rest, ((get_top_bottom_students recs n).2 ++ rest).Perm recs ∧
       ∀ a ∈ (get_top_bottom_students recs n).2, ∀ b ∈ rest, a.Average ≤ b.Average) ∧
    (∀ v : ℚ, (((get_top_bottom_students recs n).1).filter
       (fun r => decide (r.Average = v))).Sublist
         (recs.filter (fun r => decide (r.Average = v)))) ∧
    (∀ v : ℚ, (((get_top_bottom_students recs n).2).filter
       (fun r => decide (r.Average = v))).Sublist
         (recs.filter (fun r => decide (r.Average = v)))) ∧
    (recs.length < n →
       ((get_top_bottom_students recs n).1).Perm recs ∧
       ((get_top_bottom_students recs n).2).Perm recs) := by
  have hdesc := take_of_sorted_perm (sort_values_desc_perm recs h16)
    (sort_values_desc_sorted recs h16) n
  have hasc := take_of_sorted_perm (sort_values_asc_perm recs h16)
    (sort_values_asc_sorted recs h16) n
  refine ⟨hdesc.1, hasc.1, hdesc.2.1, hasc.2.1, hdesc.2.2.1, hasc.2.2.1, ?_, ?_, ?_⟩
  · intro v
    have h1 := (List.take_sublist n (sort_values_desc recs)).filter
      (fun r => decide (r.Average = v))
    rwa [sort_values_desc_filter recs h16 v] at h1
  · intro v
    have h1 := (List.take_sublist n (sort_values_asc recs)).filter
      (fun r => decide (r.Average = v))
    rwa [sort_values_asc_filter recs h16 v] at h1
  · intro hlt
    exact ⟨hdesc.2.2.2 hlt, hasc.2.2.2 hlt⟩

/-- Witness for the amended C5: on a three-student collection with the
default top_n of 5, both the Top and the Bottom selection contain all
three students. -/
theorem C5_top_bottom_selection_small_witness :
    ((get_top_bottom_students [⟨1, 80⟩, ⟨2, 90⟩, ⟨3, 70⟩] 5).1).Perm
        [⟨1, 80⟩, ⟨2, 90⟩, ⟨3, 70⟩] ∧
    ((get_top_bottom_students [⟨1, 80⟩, ⟨2, 90⟩, ⟨3, 70⟩] 5).2).Perm
        [⟨1, 80⟩, ⟨2, 90⟩, ⟨3, 70⟩] :=
  (C5_top_bottom_selection_small [⟨1, 80⟩, ⟨2, 90⟩, ⟨3, 70⟩] 5
      (by simp)).2.2.2.2.2.2.2.2 (by simp)

/-- The heap of allocated DataFrames.  Python passes frames by
reference: df.copy() allocates a fresh frame, a column assignment
mutates a frame in place.  References are heap positions. -/
abbrev Heap := List Table

/-- Dereference a frame. -/
def readTable (h : Heap) (r : ℕ) : Table := (h.get? r).getD []

/-- In-place column mutation of the frame at reference r. -/
def writeTable (h : Heap) (r : ℕ) (t : Table) : Heap := h.set r t

/-- df.copy() (lines 45 and 60): allocate a fresh frame holding a copy
of t and hand back its reference. -/
def alloc (h : Heap) (t : Table) : Heap × ℕ := (h ++ [t], h.length)

/-- clean_data (lines 44-54) as the heap operation the source performs:
df = df.copy() allocates, the strip pass and the per-subject coercion
and fill writes all go to the fresh frame only, and its reference is
returned. -/
def clean_data_st (h : Heap) (r : ℕ) (subjects : List String) : Heap × ℕ :=
  let t := readTable h r
  let h1 := (alloc h t).1
  let r1 := (alloc h t).2
  let h2 := writeTable h1 r1
    ((readTable h1 r1).map (fun c => (c.1, c.2.map stripCell)))
  let h3 := subjects.foldl (fun hh s =>
    writeTable hh r1 ((readTable hh r1).map
      (fun c => if c.1 = s then (c.1, cleanColumn c.2) else c))) h2
  (h3, r1)

/-- df[name] = cells: replace the column when it exists, append it at
the end otherwise. -/
def setColumn (t : Table) (name : String) (cells : List Value) : Table :=
  if (t.map (fun c => c.1)).contains name
  then t.map (fun c => if c.1 = name then (c.1, cells) else c)
  else t ++ [(name, cells)]

/-- The Total column cells (line 61). -/
def totalsCells (t : Table) (subjects : List String) : List Value :=
  (tableRows t subjects).map (fun row => .num (total row))

/-- The Average column cells (line 62). -/
def averagesCells (t : Table) (subjects : List String) : List Value :=
  (tableRows t subjects).map (fun row => .num (average row))

/-- df[Total].rank(method='min', ascending=False).astype(int)
(line 63) applied to the Total column cells. -/
def rankCells (cells : List Value) : List Value :=
  cells.map (fun v => match numOf v with
    | some q => .num (rankMin (cells.filterMap numOf) q)
    | none => .missing)

/-- student_metrics (lines 59-64) as the heap operation of the source:
df = df.copy() allocates, then the Total, Average and Rank column
assignments each mutate the fresh frame only. -/
def student_metrics_st (h : Heap) (r : ℕ) (subjects : List String) : Heap × ℕ :=
  let t := readTable h r
  let h1 := (alloc h t).1
  let r1 := (alloc h t).2
  let h2 := writeTable h1 r1
    (setColumn (readTable h1 r1) "Total" (totalsCells (readTable h1 r1) subjects))
  let h3 := writeTable h2 r1
    (setColumn (readTable h2 r1) "Average" (averagesCells (readTable h2 r1) subjects))
  let h4 := writeTable h3 r1
    (match lookupCol (readTable h3 r1) "Total" with
     | some cells => setColumn (readTable h3 r1) "Rank" (rankCells cells)
     | none => readTable h3 r1)
  (h4, r1)

section HeapLemmas

theorem readTable_write_ne {h : Heap} {r1 r' : ℕ} (t : Table) (hne : r' ≠ r1) :
    readTable (writeTable h r1 t) r' = readTable h r' := by
  unfold readTable writeTable
  rw [List.get?_set_ne _ _ (Ne.symm hne)]

theorem readTable_alloc {h : Heap} (t : Table) {r' : ℕ} (hlt : r' < h.length) :
    readTable (h ++ [t]) r' = readTable h r' := by
  unfold readTable
  rw [List.get?_append hlt]

theorem readTable_foldl_write {r1 : ℕ} (f : Heap → String → Table)
    (subjects : List String) (h : Heap) {r' : ℕ} (hne : r' ≠ r1) :
    readTable (subjects.foldl (fun hh s => writeTable hh r1 (f hh s)) h) r' =
      readTable h r' := by
  induction subjects generalizing h with
  | nil => rfl
  | cons s ss ih =>
    rw [List.foldl_cons, ih, readTable_write_ne _ hne]

end HeapLemmas

/-- C10: clean_data and student_metrics copy their argument frame and
return a fresh reference; every frame that existed before the call, the
argument included, reads back unchanged afterwards, cell for cell. -/
theorem C10_argument_frames_unchanged (h : Heap) (r : ℕ) (subjects : List String) :
    (∀ r' < h.length,
       readTable ((clean_data_st h r subjects).1) r' = readTable h r') ∧
    (clean_data_st h r subjects).2 = h.length ∧
    (∀ r' < h.length,
       readTable ((student_metrics_st h r subjects).1) r' = readTable h r') ∧
    (student_metrics_st h r subjects).2 = h.length := by
  refine ⟨?_, rfl, ?_, rfl⟩
  · intro r' hlt
    have hne : r' ≠ h.length := Nat.ne_of_lt hlt
    simp only [clean_data_st, alloc]
    rw [readTable_foldl_write _ subjects _ hne, readTable_write_ne _ hne,
      readTable_alloc _ hlt]
  · intro r' hlt
    have hne : r' ≠ h.length := Nat.ne_of_lt hlt
    simp only [student_metrics_st, alloc]
    rw [readTable_write_ne _ hne, readTable_write_ne _ hne,
      readTable_write_ne _ hne, readTable_alloc _ hlt]

/-- Witness for C10: on a heap holding only the example raw table, the
caller's frame (reference 0) reads back unchanged after both calls. -/
theorem C10_argument_frames_unchanged_witness :
    readTable ((clean_data_st [exampleRaw] 0 ["Math", "Sci"]).1) 0 =
      readTable [exampleRaw] 0 ∧
    readTable ((student_metrics_st [exampleRaw] 0 ["Math", "Sci"]).1) 0 =
      readTable [exampleRaw] 0 :=
  ⟨(C10_argument_frames_unchanged [exampleRaw] 0 ["Math", "Sci"]).1 0 (by decide),
   (C10_argument_frames_unchanged [exampleRaw] 0 ["Math", "Sci"]).2.2.1 0 (by decide)⟩
